import Mathlib

/-!
# MetalBuffer: the buffer-binding contract of the reverse kernel

`MetalBuffer/ShaderTypes.h` is the header shared by the host program and the
compute shader.  It holds one anonymous enumeration with three enumerators.
The first part of this development embeds the header; the second part models
the reversal dispatch that the header serves and proves its functional
behaviour.
-/

namespace MetalBuffer

/-! ## The header `ShaderTypes.h` -/

/-- Enumerator `kReverseIndexSrc = 0` of the anonymous enum: the
argument-table position of the source buffer.  The enumerators are
non-negative `int` constants, embedded as natural numbers. -/
def kReverseIndexSrc : Nat := 0

/-- Enumerator `kReverseIndexDst = 1`: the argument-table position of the
destination buffer. -/
def kReverseIndexDst : Nat := 1

/-- Enumerator `kReverseIndexCount = 2`: the number of buffer slots. -/
def kReverseIndexCount : Nat := 2

/-! ## The reversal dispatch served by the header

The compute shader and the host program of the repository consume the header;
they are modelled here from the specification of the reversal kernel. -/

/-- Modelled from the spec: the argument table of a kernel invocation, absent
from the header.  It is "an ordered, fixed-size table of argument slots,
indexed by symbolic constants"; a slot is either unbound or holds a buffer,
and a buffer is a sequence of homogeneous elements. -/
abbrev ArgumentTable (α : Type) := List (Option (List α))

/-- Modelled from the spec: the host sizes the argument table "with the count
constant rather than a literal"; every slot starts unbound. -/
def emptyTable (α : Type) : ArgumentTable α :=
  List.replicate kReverseIndexCount none

/-- Modelled from the spec: the host-side binding of a buffer at a slot of the
argument table. -/
def setBuffer {α : Type} (table : ArgumentTable α) (buffer : List α) (index : Nat) :
    ArgumentTable α :=
  table.set index (some buffer)

/-- Modelled from the spec: the device-side lookup of the buffer bound at a
slot; it fails on a position outside the table and on an unbound slot. -/
def bufferAt {α : Type} (table : ArgumentTable α) (index : Nat) : Option (List α) :=
  match table[index]? with
  | some (some buffer) => some buffer
  | _ => none

/-- Modelled from the spec: one unit of work of the reversal kernel, absent
from the header.  Unit `i` reads the source buffer bound at `kReverseIndexSrc`
and writes `dst[i] = src[N-1-i]` into the destination buffer bound at
`kReverseIndexDst`.  The kernel does no bounds checking and an out-of-range
access is undefined behaviour; the model fails there. -/
def reverseUnit {α : Type} (N : Nat) (table : ArgumentTable α) (i : Nat) :
    Option (ArgumentTable α) :=
  match bufferAt table kReverseIndexSrc, bufferAt table kReverseIndexDst with
  | some src, some dst =>
    match src[N - 1 - i]? with
    | some v =>
      if i < dst.length then some (setBuffer table (dst.set i v) kReverseIndexDst)
      else none
    | none => none
  | _, _ => none

/-- Modelled from the spec: the data-parallel dispatch of the reversal kernel.
The units of work are independent and carry "no implied ordering", so the
schedule in which they take effect is a parameter; a dispatch of `N` units
runs each of the unit numbers `0 .. N-1` once, in the order of `schedule`. -/
def reverseDispatch {α : Type} (N : Nat) (table : ArgumentTable α) :
    List Nat → Option (ArgumentTable α)
  | [] => some table
  | i :: schedule =>
    match reverseUnit N table i with
    | some table1 => reverseDispatch N table1 schedule
    | none => none

/-- Modelled from the spec: the reversal operation `reverse(S)` as the host
performs it.  The source `S` is bound at `Src()`, a destination buffer with
initial contents `dst0` is bound at `Dst()`, `N` units are dispatched and the
destination buffer is read back from its slot. -/
def reverse {α : Type} (N : Nat) (S dst0 : List α) (schedule : List Nat) :
    Option (List α) :=
  let table := setBuffer (setBuffer (emptyTable α) S kReverseIndexSrc) dst0 kReverseIndexDst
  match reverseDispatch N table schedule with
  | some table1 => bufferAt table1 kReverseIndexDst
  | none => none


/-! ## Auxiliary facts about the dispatch -/

/-- The table the host builds holds the source in slot 0 and the destination
in slot 1. -/
theorem boundTable_eq {α : Type} (S dst0 : List α) :
    setBuffer (setBuffer (emptyTable α) S kReverseIndexSrc) dst0 kReverseIndexDst
      = [some S, some dst0] := by
  rfl

/-- A unit of work whose accesses are in range overwrites position `i` of the
destination and leaves the source binding alone. -/
theorem reverseUnit_bound {α : Type} (N : Nat) (S d : List α) (i : Nat) (v : α)
    (hv : S[N - 1 - i]? = some v) (hi : i < d.length) :
    reverseUnit N [some S, some d] i = some [some S, some (d.set i v)] := by
  simp [reverseUnit, bufferAt, setBuffer, kReverseIndexSrc, kReverseIndexDst, hv, hi]

/-- Effect of running a schedule of in-range units: the units of the schedule
hold the mirrored source element, the other positions keep their contents. -/
theorem reverseDispatch_bound {α : Type} (N : Nat) (S : List α) (hS : S.length = N) :
    ∀ (schedule : List Nat) (d : List α), d.length = N → (∀ i ∈ schedule, i < N) →
      ∃ D, reverseDispatch N [some S, some d] schedule = some [some S, some D] ∧
        D.length = N ∧
        ∀ j, j < N → D[j]? = if j ∈ schedule then S[N - 1 - j]? else d[j]? := by
  intro schedule
  induction schedule with
  | nil =>
    intro d hd _
    exact ⟨d, rfl, hd, fun j _ => by simp⟩
  | cons i rest ih =>
    intro d hd hlt
    have hi : i < N := hlt i (List.mem_cons_self _ _)
    have hsrc : N - 1 - i < S.length := by omega
    have hv : S[N - 1 - i]? = some (S[N - 1 - i]) := List.getElem?_eq_getElem hsrc
    obtain ⟨D, hrun, hlen, hD⟩ := ih (d.set i (S[N - 1 - i])) (by simpa using hd)
      (fun k hk => hlt k (List.mem_cons_of_mem _ hk))
    refine ⟨D, ?_, hlen, ?_⟩
    · simp only [reverseDispatch]
      rw [reverseUnit_bound N S d i _ hv (by omega)]
      exact hrun
    · intro j hj
      rw [hD j hj]
      by_cases hji : j = i
      · subst hji
        by_cases hjr : j ∈ rest
        · simp [hjr]
        · simp [hjr, hv, List.getElem?_set, hd, hj]
      · have hij : i ≠ j := fun h => hji h.symm
        by_cases hjr : j ∈ rest
        · simp [hjr]
        · simp [hjr, hji, List.getElem?_set_ne hij]

/-- A complete dispatch with correctly sized buffers returns the source in
mirrored order. -/
theorem reverse_eq_some_reverse {α : Type} (N : Nat) (S dst0 : List α) (schedule : List Nat)
    (hS : S.length = N) (hD : dst0.length = N) (hO : schedule.Perm (List.range N)) :
    reverse N S dst0 schedule = some S.reverse := by
  have hmem : ∀ i, i ∈ schedule ↔ i < N := fun i => by
    rw [hO.mem_iff, List.mem_range]
  obtain ⟨D, hrun, hlen, hget⟩ :=
    reverseDispatch_bound N S hS schedule dst0 hD (fun i hi => (hmem i).1 hi)
  have hDrev : D = S.reverse := by
    apply List.ext_getElem?
    intro j
    by_cases hj : j < N
    · rw [hget j hj, if_pos ((hmem j).2 hj), List.getElem?_reverse (by omega)]
      congr 1
      omega
    · rw [List.getElem?_eq_none (by omega), List.getElem?_eq_none (by simp; omega)]
  simp only [reverse, boundTable_eq, hrun]
  simp [bufferAt, kReverseIndexDst, hDrev]

/-! ## The binding contract -/

/-- C1: the source-buffer slot `kReverseIndexSrc` is the constant 0; it is a
closed constant, with no argument or state it could depend on. -/
theorem kReverseIndexSrc_eq_zero : kReverseIndexSrc = 0 := rfl

/-- C2: the destination-buffer slot `kReverseIndexDst` is the constant 1. -/
theorem kReverseIndexDst_eq_one : kReverseIndexDst = 1 := rfl

/-- C3: the slot count `kReverseIndexCount` is 2 and equals the number of
distinct named binding slots, the cardinality of the set
`{kReverseIndexSrc, kReverseIndexDst}`. -/
theorem kReverseIndexCount_eq_card :
    kReverseIndexCount = 2 ∧
    kReverseIndexCount = ({kReverseIndexSrc, kReverseIndexDst} : Finset Nat).card := by
  constructor
  · rfl
  · simp [kReverseIndexCount, kReverseIndexSrc, kReverseIndexDst]

/-- C4: the named slots are contiguous and zero-based.  The set
`{kReverseIndexSrc, kReverseIndexDst}` is the set of naturals below
`kReverseIndexCount`; the two roles have different positions; and in every
argument table of `kReverseIndexCount` entries each position is the slot of a
role and both slots are in bounds. -/
theorem slots_contiguous {α : Type} (table : ArgumentTable α)
    (hsize : table.length = kReverseIndexCount) :
    ({kReverseIndexSrc, kReverseIndexDst} : Finset Nat) = Finset.range kReverseIndexCount ∧
    kReverseIndexSrc ≠ kReverseIndexDst ∧
    (∀ p : Fin table.length, p.val = kReverseIndexSrc ∨ p.val = kReverseIndexDst) ∧
    kReverseIndexSrc < table.length ∧ kReverseIndexDst < table.length := by
  refine ⟨?_, ?_, ?_, ?_, ?_⟩
  · ext p
    simp only [kReverseIndexSrc, kReverseIndexDst, kReverseIndexCount, Finset.mem_insert,
      Finset.mem_singleton, Finset.mem_range]
    omega
  · simp [kReverseIndexSrc, kReverseIndexDst]
  · intro p
    have hp := p.isLt
    simp only [hsize, kReverseIndexCount] at hp
    simp only [kReverseIndexSrc, kReverseIndexDst]
    omega
  · simp [hsize, kReverseIndexSrc, kReverseIndexCount]
  · simp [hsize, kReverseIndexDst, kReverseIndexCount]

/-- Instance of C4 at the table the host allocates: the empty argument table
has `kReverseIndexCount` entries, so the conclusions hold for it. -/
theorem slots_contiguous_witness :
    (emptyTable Nat).length = kReverseIndexCount ∧
    (({kReverseIndexSrc, kReverseIndexDst} : Finset Nat) = Finset.range kReverseIndexCount ∧
      kReverseIndexSrc ≠ kReverseIndexDst ∧
      (∀ p : Fin (emptyTable Nat).length,
        p.val = kReverseIndexSrc ∨ p.val = kReverseIndexDst) ∧
      kReverseIndexSrc < (emptyTable Nat).length ∧
      kReverseIndexDst < (emptyTable Nat).length) :=
  ⟨rfl, slots_contiguous (emptyTable Nat) rfl⟩

/-! ## The reversal operation -/

/-- C5: the reversal is correct for every length.  For a source `S` of length
`N` bound at the source slot, a destination buffer of length `N` bound at the
destination slot and any order in which the `N` units take effect, the
operation succeeds with a destination `D` of length `N` such that
`D[i] = S[N-1-i]` for every `i < N`.  In particular `[1,2,3,4,5]` gives
`[5,4,3,2,1]`, `[42]` gives `[42]`, and `N = 0` gives the empty destination
without error. -/
theorem reverse_correct :
    (∀ (α : Type) (N : Nat) (S dst0 : List α) (schedule : List Nat),
      S.length = N → dst0.length = N → schedule.Perm (List.range N) →
      ∃ D, reverse N S dst0 schedule = some D ∧ D.length = N ∧
        ∀ i, i < N → ∃ x, D[i]? = some x ∧ S[N - 1 - i]? = some x) ∧
    (∀ (dst0 : List Nat) (schedule : List Nat),
      dst0.length = 5 → schedule.Perm (List.range 5) →
      reverse 5 [1, 2, 3, 4, 5] dst0 schedule = some [5, 4, 3, 2, 1]) ∧
    (∀ d : Nat, reverse 1 [42] [d] [0] = some [42]) ∧
    (∀ α : Type, reverse 0 ([] : List α) [] [] = some []) := by
  refine ⟨?_, ?_, ?_, ?_⟩
  · intro α N S dst0 schedule hS hD hO
    refine ⟨S.reverse, reverse_eq_some_reverse N S dst0 schedule hS hD hO, by simpa using hS, ?_⟩
    intro i hi
    have hsrc : N - 1 - i < S.length := by omega
    refine ⟨S[N - 1 - i], ?_, List.getElem?_eq_getElem hsrc⟩
    rw [List.getElem?_reverse (by omega), ← List.getElem?_eq_getElem hsrc]
    congr 1
    omega
  · intro dst0 schedule hD hO
    exact reverse_eq_some_reverse 5 [1, 2, 3, 4, 5] dst0 schedule rfl hD hO
  · intro d
    rfl
  · intro α
    rfl

/-- Instance of C5: five elements, a destination holding zeros and the units
taking effect in the order 3, 1, 4, 2, 0. -/
theorem reverse_correct_witness :
    [1, 2, 3, 4, 5].length = 5 ∧ [0, 0, 0, 0, 0].length = 5 ∧
    [3, 1, 4, 2, 0].Perm (List.range 5) ∧
    ∃ D, reverse 5 [1, 2, 3, 4, 5] [0, 0, 0, 0, 0] [3, 1, 4, 2, 0] = some D ∧ D.length = 5 ∧
      ∀ i, i < 5 → ∃ x, D[i]? = some x ∧ [1, 2, 3, 4, 5][5 - 1 - i]? = some x :=
  ⟨rfl, rfl, by decide,
    reverse_correct.1 Nat 5 [1, 2, 3, 4, 5] [0, 0, 0, 0, 0] [3, 1, 4, 2, 0] rfl rfl (by decide)⟩

/-- C6: reversing twice is the identity.  Reversing `S` and then reversing the
result yields `S` again, whatever the initial contents of the two destination
buffers and the orders in which the units of the two dispatches take effect. -/
theorem reverse_twice {α : Type} (N : Nat) (S d1 d2 : List α) (o1 o2 : List Nat)
    (hS : S.length = N) (h1 : d1.length = N) (h2 : d2.length = N)
    (ho1 : o1.Perm (List.range N)) (ho2 : o2.Perm (List.range N)) :
    (reverse N S d1 o1).bind (fun D => reverse N D d2 o2) = some S := by
  rw [reverse_eq_some_reverse N S d1 o1 hS h1 ho1, Option.some_bind,
    reverse_eq_some_reverse N S.reverse d2 o2 (by simpa using hS) h2 ho2, List.reverse_reverse]

/-- Instance of C6: three elements, with the two dispatches scheduled in
different orders over destinations with different initial contents. -/
theorem reverse_twice_witness :
    [7, 8, 9].length = 3 ∧ [0, 0, 0].length = 3 ∧ [1, 1, 1].length = 3 ∧
    [2, 0, 1].Perm (List.range 3) ∧ [1, 2, 0].Perm (List.range 3) ∧
    (reverse 3 [7, 8, 9] [0, 0, 0] [2, 0, 1]).bind (fun D => reverse 3 D [1, 1, 1] [1, 2, 0])
      = some [7, 8, 9] :=
  ⟨rfl, rfl, rfl, by decide, by decide,
    reverse_twice 3 [7, 8, 9] [0, 0, 0] [1, 1, 1] [2, 0, 1] [1, 2, 0] rfl rfl rfl
      (by decide) (by decide)⟩

end MetalBuffer
